import Mathlib

/-!
Shallow embedding of the `chipper` CHIP-8 execution engine
(`src/chip8/src/{lib,memory,display,keypad}.rs`) and proofs about it.

Conventions of the embedding:
* machine integers are `Nat` with an explicit `% 2^w` wherever the Rust
  arithmetic can wrap (`u8` → `% 256`, `u16`/`as u16` → `% 65536`);
  release-mode wrapping semantics are used for `+=`/`-=`/`<<=`;
* Rust byte arrays are total functions `Nat → Nat`; an array index that can
  be out of bounds in the source (a panic) is modelled by an explicit bounds
  test returning `none`;
* `assert!` failures and `.unwrap()` on an error (both fatal panics) are
  modelled as `none` of an `Option`; recoverable `anyhow::Result` values are
  modelled as `Except String`;
* `print!`/`println!` debugging output (`print_op`) has no observable effect
  on the machine state and is omitted.
-/

/-- Pointwise update of a function modelling a mutable byte array slot. -/
def upd (f : Nat → Nat) (a b : Nat) : Nat → Nat := fun x => if x = a then b else f x

/-- Pointwise update of a two-dimensional array (row `y`, column `x`). -/
def upd2 (f : Nat → Nat → Nat) (y x v : Nat) : Nat → Nat → Nat :=
  fun y' x' => if y' = y ∧ x' = x then v else f y' x'

def FONT_CHAR_LENGTH : Nat := 5
def FONT_ADDR : Nat := 0x050
def MEM_SIZE : Nat := 0x1000
def ROM_ADDR : Nat := 0x200
def STACK_SIZE : Nat := 0x10
def REGISTER_COUNT : Nat := 0x10
def SCREEN_WIDTH : Nat := 64
def SCREEN_HEIGHT : Nat := 32

/-- `Memory` from `src/chip8/src/memory.rs`: a flat array of `MEM_SIZE` bytes. -/
structure Memory where
  data : Nat → Nat

def Memory.new : Memory := ⟨fun _ => 0⟩

/-- `Memory::write` from `src/chip8/src/memory.rs`: write `bytes` starting at
`addr`; both `ensure!` guards happen before any mutation, the copy overwrites
exactly `bytes.length` bytes, and the `Ok` value is `available as u16`. -/
def Memory.write (m : Memory) (addr : Nat) (bytes : List Nat) :
    Memory × Except String Nat :=
  if addr < MEM_SIZE then
    let available := MEM_SIZE - addr
    if bytes.length ≤ available then
      (⟨fun a => if addr ≤ a ∧ a < addr + bytes.length then bytes.getD (a - addr) 0
                 else m.data a⟩,
       .ok (available % 65536))
    else (m, .error "memory write overflow")
  else (m, .error "memory write address out of bounds")

/-- `Display` from `src/chip8/src/display.rs`: 64×32 single-bit pixels
(`fb y x` is the Rust `fb[y][x]`) plus the dirty flag. -/
structure Display where
  fb : Nat → Nat → Nat
  dirty : Bool

def Display.new : Display := ⟨fun _ _ => 0, false⟩

/-- `Display::toggle`: out-of-range coordinates return `false` without any
mutation; otherwise the pixel is xor-flipped, the display marked dirty, and
the result says whether the pixel was on before the flip. -/
def Display.toggle (d : Display) (x y : Nat) : Display × Bool :=
  if SCREEN_WIDTH ≤ x ∨ SCREEN_HEIGHT ≤ y then (d, false)
  else
    let prev := d.fb y x
    ({ fb := upd2 d.fb y x (prev ^^^ 1), dirty := true }, prev == 1)

/-- `Display::clear`: zero every pixel and mark dirty. -/
def Display.clear (_d : Display) : Display := { fb := fun _ _ => 0, dirty := true }

/-- `Key` from `src/chip8/src/keypad.rs`: an optional CHIP-8 key index. -/
structure Key where
  idx : Option Nat

/-- `Key::from_scancode`: the fixed host-scancode → key-index table; every
unmapped scancode yields the empty key. -/
def Key.from_scancode (value : Nat) : Key :=
  match value with
  | 18 => ⟨some 0x1⟩
  | 19 => ⟨some 0x2⟩
  | 20 => ⟨some 0x3⟩
  | 21 => ⟨some 0xC⟩
  | 12 => ⟨some 0x4⟩
  | 13 => ⟨some 0x5⟩
  | 14 => ⟨some 0x6⟩
  | 15 => ⟨some 0xD⟩
  | 0 => ⟨some 0x7⟩
  | 1 => ⟨some 0x8⟩
  | 2 => ⟨some 0x9⟩
  | 3 => ⟨some 0xE⟩
  | 6 => ⟨some 0xA⟩
  | 7 => ⟨some 0x0⟩
  | 8 => ⟨some 0xB⟩
  | 9 => ⟨some 0xF⟩
  | _ => ⟨none⟩

/-- `Keypad` from `src/chip8/src/keypad.rs`: the 16-entry `keys` byte array
(modelled as a total function; the Rust code indexes it only through values
below 16 except where noted) and the awaiting-release latch. -/
structure Keypad where
  keys : Nat → Nat
  awaiting_release : Option Nat

def Keypad.new : Keypad := ⟨fun _ => 0, none⟩

/-- `Keypad::keydown`: an empty key is ignored (still `Ok`); a carried index
is stored via `self.keys[key] = 1`, whose array indexing panics (`none`)
for an index ≥ 16.  No path returns a typed `Err`. -/
def Keypad.keydown (kp : Keypad) (key : Key) : Option (Except String Keypad) :=
  match key.idx with
  | some k => if k < 16 then some (.ok { kp with keys := upd kp.keys k 1 }) else none
  | none => some (.ok kp)

/-- `Keypad::keyup`: identical to `keydown` but stores `0`. -/
def Keypad.keyup (kp : Keypad) (key : Key) : Option (Except String Keypad) :=
  match key.idx with
  | some k => if k < 16 then some (.ok { kp with keys := upd kp.keys k 0 }) else none
  | none => some (.ok kp)

def Keypad.await_release (kp : Keypad) (key : Nat) : Keypad :=
  { kp with awaiting_release := some key }

def Keypad.process_release (kp : Keypad) : Keypad :=
  { kp with awaiting_release := none }

def Keypad.is_key_down (kp : Keypad) (key : Nat) : Bool := kp.keys key == 1

def Keypad.is_key_up (kp : Keypad) (key : Nat) : Bool := kp.keys key == 0

/-- `Chip8Config` from `src/chip8/src/lib.rs`. -/
structure Chip8Config where
  legacy_shift : Bool
  jump_add_offset : Bool
  memory_increment_i : Bool
  print_operations : Bool
  ops_per_cycle : Nat

def Chip8Config.new : Chip8Config :=
  ⟨false, false, false, false, 11⟩

/-- `Chip8` from `src/chip8/src/lib.rs`: the complete engine state. -/
structure Chip8 where
  config : Chip8Config
  memory : Memory
  display : Display
  keypad : Keypad
  stack : Nat → Nat
  sp : Nat
  v : Nat → Nat
  pc : Nat
  i : Nat
  dt : Nat
  st : Nat

/-- `Opcode` from `src/chip8/src/lib.rs`. -/
structure Opcode where
  c : Nat
  x : Nat
  y : Nat
  n : Nat
  nn : Nat
  nnn : Nat

/-- `Chip8::decode`: pure arithmetic bit-splitting of the instruction word. -/
def Chip8.decode (opcode : Nat) : Opcode :=
  { c := (opcode &&& 0xF000) >>> 12
    x := (opcode &&& 0x0F00) >>> 8
    y := (opcode &&& 0x00F0) >>> 4
    n := opcode &&& 0x000F
    nn := opcode &&& 0x00FF
    nnn := opcode &&& 0x0FFF }

/-! ### Instruction handlers (`impl Chip8`, `src/chip8/src/lib.rs`) -/

/-- `op_cls` (00E0): clear the display. -/
def Chip8.op_cls (s : Chip8) : Chip8 :=
  { s with display := s.display.clear }

/-- `op_sub_return` (00EE): `assert!(self.sp > 0)` (panic on empty stack),
then pop the return address into `pc`. -/
def Chip8.op_sub_return (s : Chip8) : Option Chip8 :=
  if s.sp > 0 then
    some { s with sp := s.sp - 1, pc := s.stack (s.sp - 1) }
  else none

/-- `op_jump` (1NNN). -/
def Chip8.op_jump (s : Chip8) (nnn : Nat) : Chip8 :=
  { s with pc := nnn }

/-- `op_sub_call` (2NNN): `assert!(self.sp < 12, "call stack overflow")`
(note: the source bound is 12, not `STACK_SIZE` = 16), then push `pc` and
jump. -/
def Chip8.op_sub_call (s : Chip8) (nnn : Nat) : Option Chip8 :=
  if s.sp < 12 then
    some { s with stack := upd s.stack s.sp s.pc, sp := s.sp + 1, pc := nnn }
  else none

/-- `op_skip_eq` (3XNN). -/
def Chip8.op_skip_eq (s : Chip8) (x nn : Nat) : Chip8 :=
  if s.v x = nn then { s with pc := (s.pc + 2) % 65536 } else s

/-- `op_skip_ne` (4XNN). -/
def Chip8.op_skip_ne (s : Chip8) (x nn : Nat) : Chip8 :=
  if s.v x ≠ nn then { s with pc := (s.pc + 2) % 65536 } else s

/-- `op_skip_reg_eq` (5XY0). -/
def Chip8.op_skip_reg_eq (s : Chip8) (x y : Nat) : Chip8 :=
  if s.v x = s.v y then { s with pc := (s.pc + 2) % 65536 } else s

/-- `op_set` (6XNN). -/
def Chip8.op_set (s : Chip8) (x nn : Nat) : Chip8 :=
  { s with v := upd s.v x nn }

/-- `op_add` (7XNN): `wrapping_add` on `u8`. -/
def Chip8.op_add (s : Chip8) (x nn : Nat) : Chip8 :=
  { s with v := upd s.v x ((s.v x + nn) % 256) }

/-- `op_reg_set` (8XY0). -/
def Chip8.op_reg_set (s : Chip8) (x y : Nat) : Chip8 :=
  { s with v := upd s.v x (s.v y) }

/-- `op_reg_or` (8XY1). -/
def Chip8.op_reg_or (s : Chip8) (x y : Nat) : Chip8 :=
  { s with v := upd s.v x (s.v x ||| s.v y) }

/-- `op_reg_and` (8XY2). -/
def Chip8.op_reg_and (s : Chip8) (x y : Nat) : Chip8 :=
  { s with v := upd s.v x (s.v x &&& s.v y) }

/-- `op_reg_xor` (8XY3). -/
def Chip8.op_reg_xor (s : Chip8) (x y : Nat) : Chip8 :=
  { s with v := upd s.v x (s.v x ^^^ s.v y) }

/-- `op_reg_add` (8XY4): `overflowing_add` on `u8`; `VF` is the carry. -/
def Chip8.op_reg_add (s : Chip8) (x y : Nat) : Chip8 :=
  let sum := (s.v x + s.v y) % 256
  let overflow : Nat := if 256 ≤ s.v x + s.v y then 1 else 0
  { s with v := upd (upd s.v x sum) 15 overflow }

/-- `op_reg_sub_right` (8XY5): `overflowing_sub`; `VF` is `!overflow`. -/
def Chip8.op_reg_sub_right (s : Chip8) (x y : Nat) : Chip8 :=
  let sum := (s.v x + 256 - s.v y % 256) % 256
  let noborrow : Nat := if s.v y ≤ s.v x then 1 else 0
  { s with v := upd (upd s.v x sum) 15 noborrow }

/-- `op_reg_shift_right` (8XY6): with the legacy-shift quirk, first
`v[x] = v[y]`; then `flag = v[x] & 1`, `v[x] >>= 1`, and finally
`v[0xF] = flag` (the flag write happens after the shift). -/
def Chip8.op_reg_shift_right (s : Chip8) (x y : Nat) : Chip8 :=
  let v1 := if s.config.legacy_shift then upd s.v x (s.v y) else s.v
  let flag := v1 x &&& 0x1
  let v2 := upd v1 x (v1 x >>> 1)
  { s with v := upd v2 15 flag }

/-- `op_reg_sub_left` (8XY7): `v[y] - v[x]` with `VF = !overflow`. -/
def Chip8.op_reg_sub_left (s : Chip8) (x y : Nat) : Chip8 :=
  let sum := (s.v y + 256 - s.v x % 256) % 256
  let noborrow : Nat := if s.v x ≤ s.v y then 1 else 0
  { s with v := upd (upd s.v x sum) 15 noborrow }

/-- `op_reg_shift_left` (8XYE): symmetric to 8XY6 with bit 7 and a wrapping
`u8` left shift. -/
def Chip8.op_reg_shift_left (s : Chip8) (x y : Nat) : Chip8 :=
  let v1 := if s.config.legacy_shift then upd s.v x (s.v y) else s.v
  let flag := (v1 x >>> 7) &&& 0x1
  let v2 := upd v1 x ((v1 x <<< 1) % 256)
  { s with v := upd v2 15 flag }

/-- `op_skip_reg_ne` (9XY0). -/
def Chip8.op_skip_reg_ne (s : Chip8) (x y : Nat) : Chip8 :=
  if s.v x ≠ s.v y then { s with pc := (s.pc + 2) % 65536 } else s

/-- `op_set_index` (ANNN). -/
def Chip8.op_set_index (s : Chip8) (nnn : Nat) : Chip8 :=
  { s with i := nnn }

/-- `op_jump_with_offset` (BNNN): offset register is `x` only under the
jump-add-offset quirk, else `V0`; `u16` addition. -/
def Chip8.op_jump_with_offset (s : Chip8) (nnn x : Nat) : Chip8 :=
  let idx := if s.config.jump_add_offset then x else 0
  { s with pc := (nnn + s.v idx) % 65536 }

/-- `op_random` (CXNN): `nn & random_byte`; the fresh random byte is passed
in as the `rnd` parameter. -/
def Chip8.op_random (s : Chip8) (x nn rnd : Nat) : Chip8 :=
  { s with v := upd s.v x (nn &&& rnd % 256) }

/-- The inner column loop of `op_display` (DXYN): `for col in 0..8` over the
bits of `byte` (most significant first), breaking at the right screen edge;
a set bit toggles the pixel and a collision sets `v[0xF] := 1`.
Arguments: remaining iterations, current column, display, register file. -/
def drawCols (byte vx y : Nat) : Nat → Nat → Display → (Nat → Nat) → Display × (Nat → Nat)
  | 0, _, d, v => (d, v)
  | c + 1, col, d, v =>
    let x := vx + col
    if SCREEN_WIDTH ≤ x then (d, v)
    else
      let dv :=
        if (byte >>> (7 - col)) &&& 0x1 = 1 then
          let td := d.toggle x y
          (td.1, if td.2 then upd v 15 1 else v)
        else (d, v)
      drawCols byte vx y c (col + 1) dv.1 dv.2

/-- The outer row loop of `op_display` (DXYN): `for row in 0..n`, breaking at
the bottom screen edge; each row reads the sprite byte at `memory[i + row]`
(an out-of-bounds read is a panic, `none`). -/
def drawRows (mem : Nat → Nat) (i vx vy : Nat) :
    Nat → Nat → Display → (Nat → Nat) → Option (Display × (Nat → Nat))
  | 0, _, d, v => some (d, v)
  | c + 1, row, d, v =>
    let y := vy + row
    if SCREEN_HEIGHT ≤ y then some (d, v)
    else if i + row < MEM_SIZE then
      let byte := mem (i + row)
      let dv := drawCols byte vx y 8 0 d v
      drawRows mem i vx vy c (row + 1) dv.1 dv.2
    else none

/-- `op_display` (DXYN): start at `(v[x] mod 64, v[y] mod 32)`, reset
`v[0xF]` to 0, then draw the `n` sprite rows. -/
def Chip8.op_display (s : Chip8) (x y n : Nat) : Option Chip8 :=
  let vx := s.v x % SCREEN_WIDTH
  let vy := s.v y % SCREEN_HEIGHT
  match drawRows s.memory.data s.i vx vy n 0 s.display (upd s.v 15 0) with
  | some dv => some { s with display := dv.1, v := dv.2 }
  | none => none

/-- `op_skip_if_key_down` (EX9E): `keys[v[x]]` panics for `v[x] ≥ 16`. -/
def Chip8.op_skip_if_key_down (s : Chip8) (x : Nat) : Option Chip8 :=
  if s.v x < 16 then
    some (if s.keypad.is_key_down (s.v x) then { s with pc := (s.pc + 2) % 65536 } else s)
  else none

/-- `op_skip_if_key_up` (EXA1): `keys[v[x]]` panics for `v[x] ≥ 16`. -/
def Chip8.op_skip_if_key_up (s : Chip8) (x : Nat) : Option Chip8 :=
  if s.v x < 16 then
    some (if s.keypad.is_key_up (s.v x) then { s with pc := (s.pc + 2) % 65536 } else s)
  else none

/-- `op_dt_get` (FX07). -/
def Chip8.op_dt_get (s : Chip8) (x : Nat) : Chip8 :=
  { s with v := upd s.v x s.dt }

/-- The `for key in 0..0xF + 1` loop of `op_get_key` (FX0A): visit keys in
ascending order from `k`, latch the first one that is down and stop
(`break`).  Arguments: remaining iterations, current key. -/
def key_scan_loop (kp : Keypad) : Nat → Nat → Keypad
  | 0, _ => kp
  | c + 1, k => if kp.is_key_down k then kp.await_release k else key_scan_loop kp c (k + 1)

/-- The trailing part of `op_get_key` (FX0A): run the ascending key scan,
then rewind `pc` by 2 (`u16` wrapping subtraction) so the same instruction
is fetched again. -/
def Chip8.get_key_scan (s : Chip8) : Chip8 :=
  { s with keypad := key_scan_loop s.keypad 16 0, pc := (s.pc + 65536 - 2) % 65536 }

/-- `op_get_key` (FX0A): if a latched key is now up, store it into `v[x]`,
clear the latch, and return (letting `pc` advance); otherwise fall through
to the scan-and-rewind.  The `keys[key]` read panics for a latched index
≥ 16. -/
def Chip8.op_get_key (s : Chip8) (x : Nat) : Option Chip8 :=
  match s.keypad.awaiting_release with
  | some key =>
    if key < 16 then
      if s.keypad.is_key_up key then
        some { s with v := upd s.v x key, keypad := s.keypad.process_release }
      else some s.get_key_scan
    else none
  | none => some s.get_key_scan

/-- `op_dt_set` (FX15). -/
def Chip8.op_dt_set (s : Chip8) (x : Nat) : Chip8 :=
  { s with dt := s.v x }

/-- `op_st_set` (FX18). -/
def Chip8.op_st_set (s : Chip8) (x : Nat) : Chip8 :=
  { s with st := s.v x }

/-- `op_add_to_index` (FX1E): `wrapping_add` on `u16`. -/
def Chip8.op_add_to_index (s : Chip8) (x : Nat) : Chip8 :=
  { s with i := (s.i + s.v x) % 65536 }

/-- `op_font_character` (FX29). -/
def Chip8.op_font_character (s : Chip8) (x : Nat) : Chip8 :=
  { s with i := FONT_ADDR + FONT_CHAR_LENGTH * (s.v x &&& 0xFF) }

/-- `op_convert_to_decimal` (FX33): `assert!(i + 2 < MEM_SIZE)`, then write
the three decimal digits of `v[x]` at `i`, `i+1`, `i+2`. -/
def Chip8.op_convert_to_decimal (s : Chip8) (x : Nat) : Option Chip8 :=
  if s.i + 2 < MEM_SIZE then
    let n := s.v x
    some { s with memory :=
      ⟨upd (upd (upd s.memory.data (s.i + 0) (n / 100 % 10)) (s.i + 1) (n / 10 % 10))
          (s.i + 2) (n / 1 % 10)⟩ }
  else none

/-- The loop of `op_memory_store` (FX55): copy `v[k]` to `memory[start + k]`
for `k` in `0..=x`, bumping `i` once per byte when the quirk is on.
Arguments: remaining iterations, current `k`, memory array, index register. -/
def memStoreLoop (quirk : Bool) (start : Nat) (v : Nat → Nat) :
    Nat → Nat → (Nat → Nat) → Nat → (Nat → Nat) × Nat
  | 0, _, mem, i => (mem, i)
  | c + 1, k, mem, i =>
    memStoreLoop quirk start v c (k + 1) (upd mem (start + k) (v k))
      (if quirk then (i + 1) % 65536 else i)

/-- `op_memory_store` (FX55): `assert!(i + x < MEM_SIZE)`, then run the copy
loop for `x + 1` bytes starting from the pre-loop `i`. -/
def Chip8.op_memory_store (s : Chip8) (x : Nat) : Option Chip8 :=
  if s.i + x < MEM_SIZE then
    let r := memStoreLoop s.config.memory_increment_i s.i s.v (x + 1) 0 s.memory.data s.i
    some { s with memory := ⟨r.1⟩, i := r.2 }
  else none

/-- The loop of `op_memory_load` (FX65): copy `memory[start + k]` to `v[k]`
for `k` in `0..=x`, bumping `i` once per byte when the quirk is on. -/
def memLoadLoop (quirk : Bool) (start : Nat) (mem : Nat → Nat) :
    Nat → Nat → (Nat → Nat) → Nat → (Nat → Nat) × Nat
  | 0, _, v, i => (v, i)
  | c + 1, k, v, i =>
    memLoadLoop quirk start mem c (k + 1) (upd v k (mem (start + k)))
      (if quirk then (i + 1) % 65536 else i)

/-- `op_memory_load` (FX65): `assert!(i + x < MEM_SIZE)`, then run the copy
loop for `x + 1` bytes starting from the pre-loop `i`. -/
def Chip8.op_memory_load (s : Chip8) (x : Nat) : Option Chip8 :=
  if s.i + x < MEM_SIZE then
    let r := memLoadLoop s.config.memory_increment_i s.i s.memory.data (x + 1) 0 s.v s.i
    some { s with v := r.1, i := r.2 }
  else none

/-! ### Engine driver (`Chip8::fetch` / `execute` / `step` / `load_rom`) -/

/-- `Chip8::fetch`: read the two instruction bytes at `pc` (an out-of-bounds
index is a panic), advance `pc` by 2, and big-endian-combine the bytes. -/
def Chip8.fetch (s : Chip8) : Option (Chip8 × Nat) :=
  if s.pc + 1 < MEM_SIZE then
    let b1 := s.memory.data s.pc
    let b2 := s.memory.data (s.pc + 1)
    some ({ s with pc := (s.pc + 2) % 65536 }, (b1 <<< 8) ||| b2)
  else none

/-- `Chip8::execute`: the full opcode dispatch table; every arm that the
source terminates with `bail_invalid_op(..).unwrap()` (a panic) is `none`,
and the random byte consumed by CXNN is passed in as `rnd`. -/
def Chip8.execute (s : Chip8) (op : Opcode) (rnd : Nat) : Option Chip8 :=
  match op.c with
  | 0x0 =>
    match op.x, op.y, op.n with
    | 0, 0xE, 0x0 => some s.op_cls
    | 0, 0xE, 0xE => s.op_sub_return
    | _, _, _ => none
  | 0x1 => some (s.op_jump op.nnn)
  | 0x2 => s.op_sub_call op.nnn
  | 0x3 => some (s.op_skip_eq op.x op.nn)
  | 0x4 => some (s.op_skip_ne op.x op.nn)
  | 0x5 => some (s.op_skip_reg_eq op.x op.y)
  | 0x6 => some (s.op_set op.x op.nn)
  | 0x7 => some (s.op_add op.x op.nn)
  | 0x8 =>
    match op.n with
    | 0x0 => some (s.op_reg_set op.x op.y)
    | 0x1 => some (s.op_reg_or op.x op.y)
    | 0x2 => some (s.op_reg_and op.x op.y)
    | 0x3 => some (s.op_reg_xor op.x op.y)
    | 0x4 => some (s.op_reg_add op.x op.y)
    | 0x5 => some (s.op_reg_sub_right op.x op.y)
    | 0x6 => some (s.op_reg_shift_right op.x op.y)
    | 0x7 => some (s.op_reg_sub_left op.x op.y)
    | 0xE => some (s.op_reg_shift_left op.x op.y)
    | _ => none
  | 0x9 => some (s.op_skip_reg_ne op.x op.y)
  | 0xA => some (s.op_set_index op.nnn)
  | 0xB => some (s.op_jump_with_offset op.nnn op.x)
  | 0xC => some (s.op_random op.x op.nn rnd)
  | 0xD => s.op_display op.x op.y op.n
  | 0xE =>
    match op.nn with
    | 0x9E => s.op_skip_if_key_down op.x
    | 0xA1 => s.op_skip_if_key_up op.x
    | _ => none
  | 0xF =>
    match op.nn with
    | 0x07 => some (s.op_dt_get op.x)
    | 0x0A => s.op_get_key op.x
    | 0x15 => some (s.op_dt_set op.x)
    | 0x18 => some (s.op_st_set op.x)
    | 0x1E => some (s.op_add_to_index op.x)
    | 0x29 => some (s.op_font_character op.x)
    | 0x33 => s.op_convert_to_decimal op.x
    | 0x55 => s.op_memory_store op.x
    | 0x65 => s.op_memory_load op.x
    | _ => none
  | _ => none

/-- `Chip8::step`: fetch, decode, execute one instruction; `rnd` is the
random byte CXNN would draw. -/
def Chip8.step (s : Chip8) (rnd : Nat) : Option Chip8 :=
  match s.fetch with
  | some sw => Chip8.execute sw.1 (Chip8.decode sw.2) rnd
  | none => none

/-- `Chip8::load_rom`: write the ROM bytes at `ROM_ADDR` (a write failure is
propagated before `pc` is touched), then reset `pc` to `ROM_ADDR`. -/
def Chip8.load_rom (s : Chip8) (rom : List Nat) : Chip8 × Except String Unit :=
  match Memory.write s.memory ROM_ADDR rom with
  | (m, .ok _) => ({ s with memory := m, pc := ROM_ADDR }, .ok ())
  | (m, .error e) => ({ s with memory := m }, .error e)

/-- `Chip8::keydown`: delegate the host scancode to the keypad (the scancode
is turned into a `Key` by the `Key::from_scancode` table). -/
def Chip8.keydown (s : Chip8) (scancode : Nat) : Option (Except String Chip8) :=
  match s.keypad.keydown (Key.from_scancode scancode) with
  | some (.ok kp) => some (.ok { s with keypad := kp })
  | some (.error e) => some (.error e)
  | none => none

/-- `Chip8::keyup`: delegate the host scancode to the keypad. -/
def Chip8.keyup (s : Chip8) (scancode : Nat) : Option (Except String Chip8) :=
  match s.keypad.keyup (Key.from_scancode scancode) with
  | some (.ok kp) => some (.ok { s with keypad := kp })
  | some (.error e) => some (.error e)
  | none => none

/-! ### Spec-side definitions and concrete states -/

/-- Modelled from the spec: the draw-sprite collision condition — some
sprite bit that is 1 and lands on an in-bounds pixel finds that pixel
already set.  (Within one DXYN no pixel is visited twice, so "already on
before the toggle" is equivalent to "on in the pre-instruction display",
which is the formulation used here.) -/
def sprite_collision (mem : Nat → Nat) (idx vx vy n : Nat) (d : Display) : Prop :=
  ∃ row col, row < n ∧ vy + row < SCREEN_HEIGHT ∧ col < 8 ∧ vx + col < SCREEN_WIDTH ∧
    (mem (idx + row) >>> (7 - col)) &&& 0x1 = 1 ∧ d.fb (vy + row) (vx + col) = 1

/-- The freshly constructed engine with zeroed memory (font loading aside):
a convenient base for the concrete states used in witnesses. -/
def baseState : Chip8 :=
  { config := Chip8Config.new
    memory := Memory.new
    display := Display.new
    keypad := Keypad.new
    stack := fun _ => 0
    sp := 0
    v := fun _ => 0
    pc := ROM_ADDR
    i := 0
    dt := 0
    st := 0 }

/-! ### Claim theorems -/

/-- C9: for in-range coordinates with the pixel initially off, toggling
twice returns `false` then `true` and restores every pixel; toggling at any
out-of-range coordinate returns `false` and leaves the display (pixels and
dirty flag) entirely unchanged. -/
theorem C9_toggle_involution (d : Display) (x y : Nat) :
    (x < SCREEN_WIDTH → y < SCREEN_HEIGHT → d.fb y x = 0 →
      (d.toggle x y).2 = false ∧
      ((d.toggle x y).1.toggle x y).2 = true ∧
      ∀ y' x', ((d.toggle x y).1.toggle x y).1.fb y' x' = d.fb y' x') ∧
    ((SCREEN_WIDTH ≤ x ∨ SCREEN_HEIGHT ≤ y) → d.toggle x y = (d, false)) := by
  constructor
  · intro hx hy h0
    have hcond : ¬(SCREEN_WIDTH ≤ x ∨ SCREEN_HEIGHT ≤ y) := by
      push_neg
      exact ⟨hx, hy⟩
    refine ⟨?_, ?_, ?_⟩
    · simp [Display.toggle, hcond, h0]
    · simp [Display.toggle, hcond, h0, upd2]
    · intro y' x'
      by_cases hc : y' = y ∧ x' = x
      · obtain ⟨hc1, hc2⟩ := hc
        subst hc1; subst hc2
        simp [Display.toggle, hcond, h0, upd2]
      · simp [Display.toggle, hcond, upd2, hc]
  · intro hcond
    simp [Display.toggle, hcond]

/-- C9 witness: the theorem applied at a concrete display whose pixel (3,4)
is off, and at the out-of-range coordinate (64,0). -/
theorem C9_toggle_involution_witness :
    ((Display.new.toggle 3 4).2 = false ∧
      ((Display.new.toggle 3 4).1.toggle 3 4).2 = true ∧
      ∀ y' x', ((Display.new.toggle 3 4).1.toggle 3 4).1.fb y' x' = Display.new.fb y' x') ∧
    Display.new.toggle 64 0 = (Display.new, false) := by
  refine ⟨(C9_toggle_involution Display.new 3 4).1 (by decide) (by decide) (by decide), ?_⟩
  exact (C9_toggle_involution Display.new 64 0).2 (by decide)

/-- C5: `Memory.write` fails exactly when the address is out of range or the
write would run past the end of memory; failure leaves every byte untouched;
success writes the bytes verbatim, leaves everything outside the range
untouched, and returns `MEM_SIZE - addr`, the bytes remaining after the
address. -/
theorem C5_memory_write_contract (m : Memory) (addr : Nat) (bytes : List Nat) :
    ((Memory.write m addr bytes).2.isOk = false ↔
      MEM_SIZE ≤ addr ∨ MEM_SIZE < addr + bytes.length) ∧
    ((Memory.write m addr bytes).2.isOk = false →
      ∀ a, (Memory.write m addr bytes).1.data a = m.data a) ∧
    ((Memory.write m addr bytes).2.isOk = true →
      (Memory.write m addr bytes).2 = .ok (MEM_SIZE - addr) ∧
      (∀ j, j < bytes.length → (Memory.write m addr bytes).1.data (addr + j) = bytes.getD j 0) ∧
      (∀ a, a < addr ∨ addr + bytes.length ≤ a →
        (Memory.write m addr bytes).1.data a = m.data a)) := by
  by_cases h1 : addr < MEM_SIZE
  · by_cases h2 : bytes.length ≤ MEM_SIZE - addr
    · refine ⟨?_, ?_, ?_⟩
      · simp only [Memory.write, if_pos h1, if_pos h2]
        simp [Except.isOk, Except.toBool]
        omega
      · simp [Memory.write, if_pos h1, if_pos h2, Except.isOk, Except.toBool]
      · intro _
        refine ⟨?_, ?_, ?_⟩
        · simp only [Memory.write, if_pos h1, if_pos h2]
          have : (MEM_SIZE - addr) % 65536 = MEM_SIZE - addr := by
            have : MEM_SIZE - addr ≤ MEM_SIZE := Nat.sub_le _ _
            have : MEM_SIZE - addr < 65536 := by
              simp only [MEM_SIZE] at *
              omega
            exact Nat.mod_eq_of_lt this
          rw [this]
        · intro j hj
          simp only [Memory.write, if_pos h1, if_pos h2]
          have hc : addr ≤ addr + j ∧ addr + j < addr + bytes.length := by omega
          simp only [if_pos hc]
          congr 1
          omega
        · intro a ha
          simp only [Memory.write, if_pos h1, if_pos h2]
          have hc : ¬(addr ≤ a ∧ a < addr + bytes.length) := by omega
          simp only [if_neg hc]
    · refine ⟨?_, ?_, ?_⟩
      · simp only [Memory.write, if_pos h1, if_neg h2]
        simp [Except.isOk, Except.toBool]
        omega
      · intro _ a
        simp [Memory.write, if_pos h1, if_neg h2]
      · intro hok
        exfalso
        simp [Memory.write, if_pos h1, if_neg h2, Except.isOk, Except.toBool] at hok
  · refine ⟨?_, ?_, ?_⟩
    · simp only [Memory.write, if_neg h1]
      simp [Except.isOk, Except.toBool]
      omega
    · intro _ a
      simp [Memory.write, if_neg h1]
    · intro hok
      exfalso
      simp [Memory.write, if_neg h1, Except.isOk, Except.toBool] at hok

/-- C5 witness: the theorem applied at a concrete in-bounds write (address
10, two bytes) and read back, and at a concrete overflowing write. -/
theorem C5_memory_write_contract_witness :
    (Memory.write Memory.new 10 [7, 8]).2 = .ok (MEM_SIZE - 10) ∧
    (Memory.write Memory.new 10 [7, 8]).1.data (10 + 1) = [7, 8].getD 1 0 ∧
    ((Memory.write Memory.new 4090 [1, 2, 3, 4, 5, 6, 7]).2.isOk = false ↔
      MEM_SIZE ≤ 4090 ∨ MEM_SIZE < 4090 + [1, 2, 3, 4, 5, 6, 7].length) := by
  have h := (C5_memory_write_contract Memory.new 10 [7, 8]).2.2 (by decide)
  exact ⟨h.1, h.2.1 1 (by decide),
    (C5_memory_write_contract Memory.new 4090 [1, 2, 3, 4, 5, 6, 7]).1⟩

/-- C3 (code evaluated at the failing input): with the stack pointer at 12 —
four of the 16 stack slots still free — the 2NNN handler already hits the
`assert!(self.sp < 12, "call stack overflow")` panic, although the claim
(and `STACK_SIZE` = 16, the declared stack capacity) says a call must
succeed whenever fewer than 16 return addresses are held. -/
theorem C3_sub_call_fatal_below_full :
    Chip8.op_sub_call { baseState with sp := 12 } 0x300 = none ∧
    ({ baseState with sp := 12 } : Chip8).sp < STACK_SIZE ∧
    (∀ s : Chip8, s.sp < 12 →
      Chip8.op_sub_call s 0x300 =
        some { s with stack := upd s.stack s.sp s.pc, sp := s.sp + 1, pc := 0x300 }) := by
  refine ⟨rfl, by decide, ?_⟩
  intro s hs
  simp [Chip8.op_sub_call, if_pos hs]

/-- C6 counterexample: with the legacy-shift quirk off and `x = 0xF`,
`V[0xF] = 1`, the claim says the target register ends up shifted right
(`1 >>> 1 = 0`), but the handler's final `v[0xF] = flag` write lands on the
same register and leaves it at 1. -/
theorem C6_shift_right_target_counterexample :
    (Chip8.op_reg_shift_right { baseState with v := upd baseState.v 15 1 } 15 0).v 15 ≠
      ({ baseState with v := upd baseState.v 15 1 } : Chip8).v 15 >>> 1 := by
  decide

/-- C6 amended: for 8XY6, with the legacy-shift quirk the source register is
first copied into the target, `VF` receives bit 0 of the pre-shift value,
and the target is shifted right by one — provided the target is not `VF`
itself (`x ≠ 0xF`); when `x = 0xF` the trailing flag write overwrites the
shifted value, so `V[0xF]` ends as the flag bit. -/
theorem C6_shift_right_amended (s : Chip8) (x y : Nat) :
    ((Chip8.op_reg_shift_right s x y).v 15 =
      (if s.config.legacy_shift then s.v y else s.v x) &&& 0x1) ∧
    (x ≠ 15 → (Chip8.op_reg_shift_right s x y).v x =
      (if s.config.legacy_shift then s.v y else s.v x) >>> 1) ∧
    (∀ k, k ≠ x → k ≠ 15 → (Chip8.op_reg_shift_right s x y).v k = s.v k) := by
  by_cases hq : s.config.legacy_shift
  · refine ⟨?_, ?_, ?_⟩
    · simp [Chip8.op_reg_shift_right, hq, upd]
    · intro hx
      simp [Chip8.op_reg_shift_right, hq, upd, hx]
    · intro k hk1 hk2
      simp [Chip8.op_reg_shift_right, hq, upd, hk1, hk2]
  · refine ⟨?_, ?_, ?_⟩
    · simp [Chip8.op_reg_shift_right, hq, upd]
    · intro hx
      simp [Chip8.op_reg_shift_right, hq, upd, hx]
    · intro k hk1 hk2
      simp [Chip8.op_reg_shift_right, hq, upd, hk1, hk2]

/-- C6 witness: the theorem applied to the spec's two worked examples —
quirk off, `V0 = 0b100` gives `V0 = 0b10`, `VF = 0`; quirk on, source
`V1 = 0b101` gives `V0 = 0b10`, `VF = 1`. -/
theorem C6_shift_right_amended_witness :
    (Chip8.op_reg_shift_right { baseState with v := upd baseState.v 0 4 } 0 1).v 0 = 2 ∧
    (Chip8.op_reg_shift_right { baseState with v := upd baseState.v 0 4 } 0 1).v 15 = 0 ∧
    (Chip8.op_reg_shift_right
      { baseState with
        config := { Chip8Config.new with legacy_shift := true }
        v := upd baseState.v 1 5 } 0 1).v 0 = 2 ∧
    (Chip8.op_reg_shift_right
      { baseState with
        config := { Chip8Config.new with legacy_shift := true }
        v := upd baseState.v 1 5 } 0 1).v 15 = 1 := by
  have h1 := C6_shift_right_amended { baseState with v := upd baseState.v 0 4 } 0 1
  have h2 := C6_shift_right_amended
    { baseState with
      config := { Chip8Config.new with legacy_shift := true }
      v := upd baseState.v 1 5 } 0 1
  exact ⟨h1.2.1 (by decide), h1.1, h2.2.1 (by decide), h2.1⟩

/-- C7 counterexample: a key index above 15 does not produce a typed,
reportable error — the handlers hit the out-of-bounds array write, a panic
(`none`), not an `Except.error`. -/
theorem C7_keydown_oob_counterexample :
    Keypad.keydown Keypad.new ⟨some 16⟩ = none ∧
    Keypad.keyup Keypad.new ⟨some 16⟩ = none := ⟨rfl, rfl⟩

/-- C7 amended: `keydown`/`keyup` with a mapped index below 16 set/clear the
key and succeed; an empty `Key` (which is what every unmapped scancode
becomes, since `from_scancode` never yields an index above 15) is ignored
and still succeeds; a key index above 15 is a fatal index panic, never a
typed error. -/
theorem C7_keypad_amended (kp : Keypad) (k : Nat) :
    (k < 16 →
      Keypad.keydown kp ⟨some k⟩ = some (.ok { kp with keys := upd kp.keys k 1 }) ∧
      Keypad.keyup kp ⟨some k⟩ = some (.ok { kp with keys := upd kp.keys k 0 })) ∧
    (Keypad.keydown kp ⟨none⟩ = some (.ok kp) ∧
      Keypad.keyup kp ⟨none⟩ = some (.ok kp)) ∧
    (16 ≤ k →
      Keypad.keydown kp ⟨some k⟩ = none ∧ Keypad.keyup kp ⟨some k⟩ = none) ∧
    (16 ≤ k → ∀ sc, (Key.from_scancode sc).idx ≠ some k) := by
  refine ⟨?_, ⟨rfl, rfl⟩, ?_, ?_⟩
  · intro hk
    constructor
    · simp [Keypad.keydown, if_pos hk]
    · simp [Keypad.keyup, if_pos hk]
  · intro hk
    have hk' : ¬ k < 16 := by omega
    constructor
    · simp [Keypad.keydown, if_neg hk']
    · simp [Keypad.keyup, if_neg hk']
  · intro hk sc
    unfold Key.from_scancode
    split <;> simp <;> omega

/-- C7 witness: the theorem applied at `k = 3` (a mapped press and release)
and at `k = 16` with scancode 99 (an unmapped input). -/
theorem C7_keypad_amended_witness :
    Keypad.keydown Keypad.new ⟨some 3⟩ =
      some (.ok { Keypad.new with keys := upd Keypad.new.keys 3 1 }) ∧
    Keypad.keyup Keypad.new ⟨some 3⟩ =
      some (.ok { Keypad.new with keys := upd Keypad.new.keys 3 0 }) ∧
    (Key.from_scancode 99).idx ≠ some 16 := by
  have h := (C7_keypad_amended Keypad.new 3).1 (by decide)
  exact ⟨h.1, h.2, (C7_keypad_amended Keypad.new 16).2.2.2 (by decide) 99⟩

/-- The index register threaded through the FX55 copy loop with the quirk
off: untouched. -/
theorem memStoreLoop_index_off (start : Nat) (v : Nat → Nat) :
    ∀ c k mem i, (memStoreLoop false start v c k mem i).2 = i := by
  intro c
  induction c with
  | zero => intro k mem i; rfl
  | succ c ih => intro k mem i; simpa [memStoreLoop] using ih (k + 1) (upd mem (start + k) (v k)) i

/-- The index register threaded through the FX55 copy loop with the quirk
on: bumped once per byte. -/
theorem memStoreLoop_index_on (start : Nat) (v : Nat → Nat) :
    ∀ c k mem i, i < 65536 →
      (memStoreLoop true start v c k mem i).2 = (i + c) % 65536 := by
  intro c
  induction c with
  | zero => intro k mem i hi; simp [memStoreLoop, Nat.mod_eq_of_lt hi]
  | succ c ih =>
    intro k mem i hi
    have hstep : memStoreLoop true start v (c + 1) k mem i =
        memStoreLoop true start v c (k + 1) (upd mem (start + k) (v k)) ((i + 1) % 65536) := by
      simp [memStoreLoop]
    rw [hstep, ih _ _ _ (Nat.mod_lt _ (by omega)), Nat.mod_add_mod]
    congr 1
    omega

/-- The index register threaded through the FX65 copy loop with the quirk
off: untouched. -/
theorem memLoadLoop_index_off (start : Nat) (mem : Nat → Nat) :
    ∀ c k v i, (memLoadLoop false start mem c k v i).2 = i := by
  intro c
  induction c with
  | zero => intro k v i; rfl
  | succ c ih => intro k v i; simpa [memLoadLoop] using ih (k + 1) (upd v k (mem (start + k))) i

/-- The index register threaded through the FX65 copy loop with the quirk
on: bumped once per byte. -/
theorem memLoadLoop_index_on (start : Nat) (mem : Nat → Nat) :
    ∀ c k v i, i < 65536 →
      (memLoadLoop true start mem c k v i).2 = (i + c) % 65536 := by
  intro c
  induction c with
  | zero => intro k v i hi; simp [memLoadLoop, Nat.mod_eq_of_lt hi]
  | succ c ih =>
    intro k v i hi
    have hstep : memLoadLoop true start mem (c + 1) k v i =
        memLoadLoop true start mem c (k + 1) (upd v k (mem (start + k))) ((i + 1) % 65536) := by
      simp [memLoadLoop]
    rw [hstep, ih _ _ _ (Nat.mod_lt _ (by omega)), Nat.mod_add_mod]
    congr 1
    omega

/-- C8: for FX55/FX65 executed within memory bounds, the index register ends
at its old value plus `x + 1` (one bump per byte transferred) when the
memory-increment-index quirk is on, and is unchanged when it is off. -/
theorem C8_block_index_quirk (s : Chip8) (x : Nat) (h : s.i + x < MEM_SIZE) :
    (∃ s1, Chip8.op_memory_store s x = some s1 ∧
      s1.i = if s.config.memory_increment_i then s.i + (x + 1) else s.i) ∧
    (∃ s2, Chip8.op_memory_load s x = some s2 ∧
      s2.i = if s.config.memory_increment_i then s.i + (x + 1) else s.i) := by
  have hi : s.i < 65536 := by simp only [MEM_SIZE] at h; omega
  have hmod : (s.i + (x + 1)) % 65536 = s.i + (x + 1) := by
    apply Nat.mod_eq_of_lt
    simp only [MEM_SIZE] at h
    omega
  constructor
  · simp only [Chip8.op_memory_store, if_pos h]
    refine ⟨_, rfl, ?_⟩
    cases hq : s.config.memory_increment_i with
    | false => rw [hq] at *; simp [memStoreLoop_index_off]
    | true => rw [hq] at *; simp [memStoreLoop_index_on _ _ _ _ _ _ hi, hmod]
  · simp only [Chip8.op_memory_load, if_pos h]
    refine ⟨_, rfl, ?_⟩
    cases hq : s.config.memory_increment_i with
    | false => rw [hq] at *; simp [memLoadLoop_index_off]
    | true => rw [hq] at *; simp [memLoadLoop_index_on _ _ _ _ _ _ hi, hmod]

/-- C8 witness: the theorem applied with the quirk on at `i = 0x300`,
`x = 3` (index advances to 0x304) and with the quirk off (index stays). -/
theorem C8_block_index_quirk_witness :
    (∃ s1, Chip8.op_memory_store
        { baseState with
          config := { Chip8Config.new with memory_increment_i := true }
          i := 0x300 } 3 = some s1 ∧ s1.i = 0x304) ∧
    (∃ s2, Chip8.op_memory_load { baseState with i := 0x300 } 3 = some s2 ∧
      s2.i = 0x300) := by
  constructor
  · obtain ⟨s1, h1, h2⟩ := (C8_block_index_quirk
      { baseState with
        config := { Chip8Config.new with memory_increment_i := true }
        i := 0x300 } 3 (by decide)).1
    exact ⟨s1, h1, by rw [h2]; decide⟩
  · obtain ⟨s2, h1, h2⟩ := (C8_block_index_quirk { baseState with i := 0x300 } 3 (by decide)).2
    exact ⟨s2, h1, by rw [h2]; decide⟩

/-- C10: a successful ROM load changes exactly the `rom.length` memory bytes
from 0x200 on (written verbatim) and the program counter (reset to 0x200);
the font region below 0x200, all memory past the ROM, the registers, index,
timers, stack, stack pointer, display, and keypad are untouched. -/
theorem C10_load_rom_frame (s : Chip8) (rom : List Nat)
    (h : ROM_ADDR + rom.length ≤ MEM_SIZE) :
    ∃ s', Chip8.load_rom s rom = (s', .ok ()) ∧
      s'.pc = ROM_ADDR ∧
      (∀ j, j < rom.length → s'.memory.data (ROM_ADDR + j) = rom.getD j 0) ∧
      (∀ a, a < ROM_ADDR ∨ ROM_ADDR + rom.length ≤ a → s'.memory.data a = s.memory.data a) ∧
      s'.config = s.config ∧ s'.display = s.display ∧ s'.keypad = s.keypad ∧
      s'.stack = s.stack ∧ s'.sp = s.sp ∧ s'.v = s.v ∧ s'.i = s.i ∧
      s'.dt = s.dt ∧ s'.st = s.st := by
  have h1 : ROM_ADDR < MEM_SIZE := by decide
  have h2 : rom.length ≤ MEM_SIZE - ROM_ADDR := by
    simp only [ROM_ADDR, MEM_SIZE] at *
    omega
  simp only [Chip8.load_rom, Memory.write, if_pos h1, if_pos h2]
  refine ⟨_, rfl, rfl, ?_, ?_, rfl, rfl, rfl, rfl, rfl, rfl, rfl, rfl, rfl⟩
  · intro j hj
    have hc : ROM_ADDR ≤ ROM_ADDR + j ∧ ROM_ADDR + j < ROM_ADDR + rom.length := by omega
    show (if ROM_ADDR ≤ ROM_ADDR + j ∧ ROM_ADDR + j < ROM_ADDR + rom.length
          then rom.getD (ROM_ADDR + j - ROM_ADDR) 0 else s.memory.data (ROM_ADDR + j)) = _
    rw [if_pos hc]
    have hidx : ROM_ADDR + j - ROM_ADDR = j := by omega
    rw [hidx]
  · intro a ha
    have hc : ¬(ROM_ADDR ≤ a ∧ a < ROM_ADDR + rom.length) := by omega
    show (if ROM_ADDR ≤ a ∧ a < ROM_ADDR + rom.length
          then rom.getD (a - ROM_ADDR) 0 else s.memory.data a) = _
    rw [if_neg hc]

/-- C10 witness: the theorem applied to a two-byte ROM loaded into the fresh
engine; the two bytes land at 0x200/0x201, address 0x050 and the registers
are untouched, and `pc` is 0x200. -/
theorem C10_load_rom_frame_witness :
    ∃ s', Chip8.load_rom baseState [171, 205] = (s', .ok ()) ∧
      s'.pc = ROM_ADDR ∧
      s'.memory.data (ROM_ADDR + 1) = [171, 205].getD 1 0 ∧
      s'.memory.data 0x050 = baseState.memory.data 0x050 ∧
      s'.v = baseState.v := by
  obtain ⟨s', hload, hpc, hrom, hframe, _, _, _, _, _, hv, _, _, _⟩ :=
    C10_load_rom_frame baseState [171, 205] (by decide)
  exact ⟨s', hload, hpc, hrom 1 (by decide), hframe 0x050 (by decide), hv⟩

/-- Complete case analysis of the FX0A ascending key scan: either no visited
key is down and the keypad is returned unchanged, or the first down key `j`
in the visited range is latched. -/
theorem key_scan_loop_cases (kp : Keypad) :
    ∀ c k,
      (key_scan_loop kp c k = kp ∧ ∀ m, k ≤ m → m < k + c → kp.is_key_down m = false) ∨
      (∃ j, k ≤ j ∧ j < k + c ∧ kp.is_key_down j = true ∧
        (∀ m, k ≤ m → m < j → kp.is_key_down m = false) ∧
        key_scan_loop kp c k = kp.await_release j) := by
  intro c
  induction c with
  | zero =>
    intro k
    left
    exact ⟨rfl, fun m h1 h2 => absurd (Nat.lt_of_le_of_lt h1 h2) (by omega)⟩
  | succ c ih =>
    intro k
    cases hd : kp.is_key_down k with
    | true =>
      right
      refine ⟨k, Nat.le_refl k, by omega, hd,
        fun m h1 h2 => absurd (Nat.lt_of_le_of_lt h1 h2) (Nat.lt_irrefl k), ?_⟩
      simp [key_scan_loop, hd]
    | false =>
      rcases ih (k + 1) with ⟨heq, hall⟩ | ⟨j, hj1, hj2, hj3, hj4, hj5⟩
      · left
        refine ⟨by simp [key_scan_loop, hd, heq], ?_⟩
        intro m h1 h2
        rcases Nat.lt_or_ge m (k + 1) with h3 | h3
        · have hm : m = k := by omega
          rw [hm]
          exact hd
        · exact hall m h3 (by omega)
      · right
        refine ⟨j, by omega, by omega, hj3, ?_, by simp [key_scan_loop, hd, hj5]⟩
        intro m h1 h2
        rcases Nat.lt_or_ge m (k + 1) with h3 | h3
        · have hm : m = k := by omega
          rw [hm]
          exact hd
        · exact hj4 m h3 h2

/-- FX0A with no latched key falls through to the scan-and-rewind. -/
theorem op_get_key_none (s : Chip8) (x : Nat)
    (ha : s.keypad.awaiting_release = none) :
    Chip8.op_get_key s x = some s.get_key_scan := by
  unfold Chip8.op_get_key
  rw [ha]

/-- FX0A with a latched key that is observed up writes the key into `v[x]`,
clears the latch, and returns without rewinding `pc`. -/
theorem op_get_key_up (s : Chip8) (x k : Nat)
    (ha : s.keypad.awaiting_release = some k) (hk : k < 16)
    (hu : s.keypad.is_key_up k = true) :
    Chip8.op_get_key s x =
      some { s with v := upd s.v x k, keypad := s.keypad.process_release } := by
  unfold Chip8.op_get_key
  rw [ha]
  dsimp only
  rw [if_pos hk, if_pos hu]

/-- FX0A with a latched key that is still not up falls through to the
scan-and-rewind. -/
theorem op_get_key_held (s : Chip8) (x k : Nat)
    (ha : s.keypad.awaiting_release = some k) (hk : k < 16)
    (hu : s.keypad.is_key_up k = false) :
    Chip8.op_get_key s x = some s.get_key_scan := by
  unfold Chip8.op_get_key
  rw [ha]
  dsimp only
  rw [if_pos hk, if_neg (by simp [hu])]

/-- C4 counterexample: keys 3 and 5 held down, key 5 latched.  Re-executing
the wait-for-key instruction re-runs the ascending scan, which replaces the
latch with key 3 even though the latched key 5 is still down — the claimed
invariant ("no operation replaces the slot with a different key while the
latched key remains down") fails. -/
theorem C4_latch_replaced_counterexample :
    (Chip8.op_get_key
        { baseState with keypad := ⟨fun k => if k = 3 ∨ k = 5 then 1 else 0, some 5⟩ } 0).map
      (fun t => t.keypad.awaiting_release) = some (some 3) ∧
    (Chip8.op_get_key
        { baseState with keypad := ⟨fun k => if k = 3 ∨ k = 5 then 1 else 0, some 5⟩ } 0).map
      (fun t => t.keypad.keys 5) = some 1 ∧
    (({ baseState with keypad := ⟨fun k => if k = 3 ∨ k = 5 then 1 else 0, some 5⟩ } : Chip8).keypad.keys 5) = 1 := by
  refine ⟨?_, ?_, ?_⟩ <;> decide

/-- C4 amended: on any keypad whose key bytes are 0/1, the awaiting-release
slot always names a key that was down at the moment the wait-for-key
instruction (re-)latched it; the instruction clears it only when the latched
key is observed up, but a re-execution while the latched key is still down
re-runs the ascending scan and may replace the slot with a smaller-indexed
key that is also down; the host key-down/key-up injections never touch the
slot. -/
theorem C4_latch_invariant_amended (s : Chip8) (x : Nat)
    (hb : ∀ j, s.keypad.keys j ≤ 1) :
    (∀ s' k, Chip8.op_get_key s x = some s' → s'.keypad.awaiting_release = some k →
      s.keypad.keys k = 1 ∧ s'.keypad.keys k = 1) ∧
    (∀ s' k, s.keypad.awaiting_release = some k → Chip8.op_get_key s x = some s' →
      s'.keypad.awaiting_release ≠ some k →
      (s.keypad.keys k = 0 ∨
        ∃ j, j < k ∧ s.keypad.keys j = 1 ∧ s'.keypad.awaiting_release = some j)) ∧
    (∀ kp kp' key, Keypad.keydown kp key = some (.ok kp') →
      kp'.awaiting_release = kp.awaiting_release) ∧
    (∀ kp kp' key, Keypad.keyup kp key = some (.ok kp') →
      kp'.awaiting_release = kp.awaiting_release) := by
  have hdown_of_not_up : ∀ k, s.keypad.is_key_up k = false → s.keypad.keys k = 1 := by
    intro k hu
    have h1 : s.keypad.keys k ≠ 0 := by
      intro h0
      have h2 : s.keypad.is_key_up k = true := by simp [Keypad.is_key_up, h0]
      rw [h2] at hu
      exact Bool.noConfusion hu
    have h3 := hb k
    omega
  refine ⟨?_, ?_, ?_, ?_⟩
  · intro s' k hop hk
    cases ha : s.keypad.awaiting_release with
    | none =>
      rw [op_get_key_none s x ha] at hop
      have hs : s' = s.get_key_scan := (Option.some.inj hop).symm
      subst hs
      rcases key_scan_loop_cases s.keypad 16 0 with ⟨heq, _⟩ | ⟨j, _, _, hdown, _, heq⟩
      · exfalso
        have hnone : (s.get_key_scan).keypad.awaiting_release = none := by
          show (key_scan_loop s.keypad 16 0).awaiting_release = none
          rw [heq]
          exact ha
        rw [hnone] at hk
        exact Option.noConfusion hk
      · have haw : (s.get_key_scan).keypad.awaiting_release = some j := by
          show (key_scan_loop s.keypad 16 0).awaiting_release = some j
          rw [heq]
          rfl
        have hjk : j = k := by
          rw [haw] at hk
          exact Option.some.inj hk
        subst hjk
        have hkeys1 : s.keypad.keys j = 1 := by simpa [Keypad.is_key_down] using hdown
        refine ⟨hkeys1, ?_⟩
        show (key_scan_loop s.keypad 16 0).keys j = 1
        rw [heq]
        exact hkeys1
    | some key =>
      by_cases hklt : key < 16
      · cases hu : s.keypad.is_key_up key with
        | true =>
          rw [op_get_key_up s x key ha hklt hu] at hop
          have hs : s' = { s with v := upd s.v x key, keypad := s.keypad.process_release } :=
            (Option.some.inj hop).symm
          subst hs
          exact absurd hk (by simp [Keypad.process_release])
        | false =>
          rw [op_get_key_held s x key ha hklt hu] at hop
          have hs : s' = s.get_key_scan := (Option.some.inj hop).symm
          subst hs
          rcases key_scan_loop_cases s.keypad 16 0 with ⟨heq, _⟩ | ⟨j, _, _, hdown, _, heq⟩
          · have haw : (s.get_key_scan).keypad.awaiting_release = some key := by
              show (key_scan_loop s.keypad 16 0).awaiting_release = some key
              rw [heq]
              exact ha
            have hkk : key = k := by
              rw [haw] at hk
              exact Option.some.inj hk
            subst hkk
            have h1 := hdown_of_not_up key hu
            refine ⟨h1, ?_⟩
            show (key_scan_loop s.keypad 16 0).keys key = 1
            rw [heq]
            exact h1
          · have haw : (s.get_key_scan).keypad.awaiting_release = some j := by
              show (key_scan_loop s.keypad 16 0).awaiting_release = some j
              rw [heq]
              rfl
            have hjk : j = k := by
              rw [haw] at hk
              exact Option.some.inj hk
            subst hjk
            have hkeys1 : s.keypad.keys j = 1 := by simpa [Keypad.is_key_down] using hdown
            refine ⟨hkeys1, ?_⟩
            show (key_scan_loop s.keypad 16 0).keys j = 1
            rw [heq]
            exact hkeys1
      · exfalso
        unfold Chip8.op_get_key at hop
        rw [ha] at hop
        dsimp only at hop
        rw [if_neg hklt] at hop
        exact Option.noConfusion hop
  · intro s' k ha hop hne
    by_cases hklt : k < 16
    · cases hu : s.keypad.is_key_up k with
      | true =>
        left
        simpa [Keypad.is_key_up] using hu
      | false =>
        rw [op_get_key_held s x k ha hklt hu] at hop
        have hs : s' = s.get_key_scan := (Option.some.inj hop).symm
        subst hs
        rcases key_scan_loop_cases s.keypad 16 0 with ⟨heq, _⟩ | ⟨j, _, hj2, hdown, hmin, heq⟩
        · exfalso
          apply hne
          show (key_scan_loop s.keypad 16 0).awaiting_release = some k
          rw [heq]
          exact ha
        · have haw : (s.get_key_scan).keypad.awaiting_release = some j := by
            show (key_scan_loop s.keypad 16 0).awaiting_release = some j
            rw [heq]
            rfl
          have hjne : j ≠ k := by
            intro hcontra
            exact hne (by rw [haw, hcontra])
          rcases Nat.lt_or_ge j k with hlt | hge
          · right
            exact ⟨j, hlt, by simpa [Keypad.is_key_down] using hdown, haw⟩
          · exfalso
            have hgt : k < j := by omega
            have hkd : s.keypad.is_key_down k = true := by
              simp [Keypad.is_key_down, hdown_of_not_up k hu]
            have hfalse := hmin k (Nat.zero_le k) hgt
            rw [hkd] at hfalse
            exact Bool.noConfusion hfalse
    · exfalso
      unfold Chip8.op_get_key at hop
      rw [ha] at hop
      dsimp only at hop
      rw [if_neg hklt] at hop
      exact Option.noConfusion hop
  · intro kp kp' key h
    obtain ⟨idx⟩ := key
    cases idx with
    | none =>
      have h2 : kp = kp' := Except.ok.inj (Option.some.inj h)
      rw [← h2]
    | some k2 =>
      by_cases hk2 : k2 < 16
      · have hr : Keypad.keydown kp ⟨some k2⟩ =
            (if k2 < 16 then some (.ok { kp with keys := upd kp.keys k2 1 }) else none) := rfl
        rw [hr, if_pos hk2] at h
        have h2 := Except.ok.inj (Option.some.inj h)
        rw [← h2]
      · have hr : Keypad.keydown kp ⟨some k2⟩ =
            (if k2 < 16 then some (.ok { kp with keys := upd kp.keys k2 1 }) else none) := rfl
        rw [hr, if_neg hk2] at h
        exact Option.noConfusion h
  · intro kp kp' key h
    obtain ⟨idx⟩ := key
    cases idx with
    | none =>
      have h2 : kp = kp' := Except.ok.inj (Option.some.inj h)
      rw [← h2]
    | some k2 =>
      by_cases hk2 : k2 < 16
      · have hr : Keypad.keyup kp ⟨some k2⟩ =
            (if k2 < 16 then some (.ok { kp with keys := upd kp.keys k2 0 }) else none) := rfl
        rw [hr, if_pos hk2] at h
        have h2 := Except.ok.inj (Option.some.inj h)
        rw [← h2]
      · have hr : Keypad.keyup kp ⟨some k2⟩ =
            (if k2 < 16 then some (.ok { kp with keys := upd kp.keys k2 0 }) else none) := rfl
        rw [hr, if_neg hk2] at h
        exact Option.noConfusion h

/-- C4 witness: the theorem applied to a keypad with key 5 down and nothing
latched; the scan part of FX0A latches key 5, which was (and remains)
down. -/
theorem C4_latch_invariant_amended_witness :
    (({ baseState with keypad := ⟨fun k => if k = 5 then 1 else 0, none⟩ } : Chip8).keypad.keys 5) = 1 ∧
    ((Chip8.get_key_scan
        { baseState with keypad := ⟨fun k => if k = 5 then 1 else 0, none⟩ }).keypad.keys 5) = 1 := by
  have hb : ∀ j, ({ baseState with
      keypad := ⟨fun k => if k = 5 then 1 else 0, none⟩ } : Chip8).keypad.keys j ≤ 1 := by
    intro j
    show (if j = 5 then 1 else 0) ≤ 1
    split <;> omega
  exact (C4_latch_invariant_amended _ 0 hb).1
    (Chip8.get_key_scan { baseState with keypad := ⟨fun k => if k = 5 then 1 else 0, none⟩ })
    5 rfl (by decide)

/-- Decoding an FX0A instruction word (first byte `0xF0 + x`, second byte
`0x0A`) yields opcode class 0xF, operand `x`, and low byte 0x0A. -/
theorem decode_fx0a {x : Nat} (hx : x < 16) :
    Chip8.decode (((0xF0 + x) <<< 8) ||| 0x0A) = ⟨15, x, 0, 10, 10, x * 256 + 10⟩ := by
  interval_cases x <;> rfl

/-- C2: with an FX0A instruction at `pc`, a `step` (fetch advances `pc`,
the handler rewinds it) behaves as the blocking protocol: with no key down
and no latch the whole state is unchanged, so the same instruction is
re-fetched; with some key down and no latch the pc is still held and the
first down key of the ascending scan is latched; with the latched key still
not up the pc is held; once the latched key is observed up, the key index is
written to `v[x]`, the latch clears, and `pc` advances past the
instruction. -/
theorem C2_wait_for_key (s : Chip8) (x rnd : Nat)
    (hx : x < 16) (hpc : s.pc + 1 < MEM_SIZE)
    (hb1 : s.memory.data s.pc = 0xF0 + x)
    (hb2 : s.memory.data (s.pc + 1) = 0x0A) :
    ((s.keypad.awaiting_release = none ∧
        (∀ k, k < 16 → s.keypad.is_key_down k = false)) →
      Chip8.step s rnd = some s) ∧
    (∀ k, s.keypad.awaiting_release = none → k < 16 →
      s.keypad.is_key_down k = true →
      ∃ s' j, Chip8.step s rnd = some s' ∧ s'.pc = s.pc ∧ s'.v = s.v ∧
        s'.keypad.awaiting_release = some j ∧ s.keypad.is_key_down j = true ∧
        (∀ m, m < j → s.keypad.is_key_down m = false)) ∧
    (∀ k, s.keypad.awaiting_release = some k → k < 16 →
      s.keypad.is_key_up k = false →
      ∃ s', Chip8.step s rnd = some s' ∧ s'.pc = s.pc ∧ s'.v = s.v) ∧
    (∀ k, s.keypad.awaiting_release = some k → k < 16 →
      s.keypad.is_key_up k = true →
      ∃ s', Chip8.step s rnd = some s' ∧ s'.pc = (s.pc + 2) % 65536 ∧
        s'.v = upd s.v x k ∧ s'.keypad.awaiting_release = none) := by
  have hm2 : (s.pc + 2) % 65536 = s.pc + 2 := by
    simp only [MEM_SIZE] at hpc
    omega
  have hpcr : (s.pc + 2 + 65536 - 2) % 65536 = s.pc := by
    simp only [MEM_SIZE] at hpc
    omega
  have hred : Chip8.step s rnd = Chip8.op_get_key { s with pc := s.pc + 2 } x := by
    unfold Chip8.step Chip8.fetch
    rw [if_pos hpc]
    dsimp only
    rw [hb1, hb2, hm2, decode_fx0a hx]
    rfl
  refine ⟨?_, ?_, ?_, ?_⟩
  · rintro ⟨ha, hall⟩
    have hloop : key_scan_loop s.keypad 16 0 = s.keypad := by
      rcases key_scan_loop_cases s.keypad 16 0 with ⟨heq, _⟩ | ⟨j, _, hj2, hdown, _, _⟩
      · exact heq
      · exfalso
        have hfalse := hall j (by omega)
        rw [hfalse] at hdown
        exact Bool.noConfusion hdown
    have hback : Chip8.get_key_scan { s with pc := s.pc + 2 } = s := by
      unfold Chip8.get_key_scan
      show ({ s with
          keypad := key_scan_loop s.keypad 16 0
          pc := (s.pc + 2 + 65536 - 2) % 65536 } : Chip8) = s
      rw [hloop, hpcr]
    rw [hred, op_get_key_none { s with pc := s.pc + 2 } x ha, hback]
  · intro k ha hklt hdk
    rcases key_scan_loop_cases s.keypad 16 0 with ⟨_, hall⟩ | ⟨j, _, hj2, hdown, hmin, heq⟩
    · exfalso
      have hfalse := hall k (Nat.zero_le k) (by omega)
      rw [hfalse] at hdk
      exact Bool.noConfusion hdk
    · refine ⟨Chip8.get_key_scan { s with pc := s.pc + 2 }, j,
        by rw [hred, op_get_key_none { s with pc := s.pc + 2 } x ha], ?_, rfl, ?_, hdown, ?_⟩
      · show (s.pc + 2 + 65536 - 2) % 65536 = s.pc
        exact hpcr
      · show (key_scan_loop s.keypad 16 0).awaiting_release = some j
        rw [heq]
        rfl
      · intro m hm
        exact hmin m (Nat.zero_le m) hm
  · intro k ha hklt hu
    refine ⟨Chip8.get_key_scan { s with pc := s.pc + 2 },
      by rw [hred, op_get_key_held { s with pc := s.pc + 2 } x k ha hklt hu], ?_, rfl⟩
    show (s.pc + 2 + 65536 - 2) % 65536 = s.pc
    exact hpcr
  · intro k ha hklt hu
    refine ⟨{ s with
        pc := s.pc + 2
        v := upd s.v x k
        keypad := s.keypad.process_release },
      by rw [hred, op_get_key_up { s with pc := s.pc + 2 } x k ha hklt hu], ?_, rfl, rfl⟩
    show s.pc + 2 = (s.pc + 2) % 65536
    exact hm2.symm

/-- C2 witness: the theorem applied to a concrete engine whose memory holds
F00A at 0x200 with no key down and nothing latched — one step leaves the
state (in particular `pc`) exactly as it was. -/
theorem C2_wait_for_key_witness :
    Chip8.step
      { baseState with
        memory := ⟨fun a => if a = 512 then 0xF0 else if a = 513 then 0x0A else 0⟩ } 77 =
    some { baseState with
      memory := ⟨fun a => if a = 512 then 0xF0 else if a = 513 then 0x0A else 0⟩ } := by
  exact (C2_wait_for_key _ 0 77 (by decide) (by decide) (by decide) (by decide)).1
    ⟨rfl, by decide⟩

/-- A toggle leaves every pixel other than its target unchanged. -/
theorem toggle_fb_ne (d : Display) (x y y' x' : Nat) (h : ¬(y' = y ∧ x' = x)) :
    ((d.toggle x y).1).fb y' x' = d.fb y' x' := by
  unfold Display.toggle
  by_cases hob : SCREEN_WIDTH ≤ x ∨ SCREEN_HEIGHT ≤ y
  · rw [if_pos hob]
  · rw [if_neg hob]
    show upd2 d.fb y x (d.fb y x ^^^ 1) y' x' = d.fb y' x'
    unfold upd2
    exact if_neg h

/-- An in-bounds toggle written out explicitly. -/
theorem toggle_in_bounds (d : Display) (x y : Nat)
    (hx : x < SCREEN_WIDTH) (hy : y < SCREEN_HEIGHT) :
    d.toggle x y =
      ({ fb := upd2 d.fb y x (d.fb y x ^^^ 1), dirty := true }, d.fb y x == 1) := by
  unfold Display.toggle
  rw [if_neg (by push_neg; exact ⟨hx, hy⟩)]

/-- The DXYN column loop touches only pixels of its own row at columns not
yet visited; everything else keeps its pre-loop value. -/
theorem drawCols_frame (byte vx y : Nat) :
    ∀ c col d v y' x', (y' ≠ y ∨ x' < vx + col) →
      ((drawCols byte vx y c col d v).1).fb y' x' = d.fb y' x' := by
  intro c
  induction c with
  | zero => intro col d v y' x' h; rfl
  | succ c ih =>
    intro col d v y' x' h
    by_cases hb : SCREEN_WIDTH ≤ vx + col
    · simp only [drawCols, if_pos hb]
    · simp only [drawCols, if_neg hb]
      by_cases hbit : (byte >>> (7 - col)) &&& 0x1 = 1
      · rw [if_pos hbit]
        dsimp only
        rw [ih (col + 1) _ _ y' x'
          (by rcases h with h | h
              · exact Or.inl h
              · exact Or.inr (by omega))]
        exact toggle_fb_ne d (vx + col) y y' x'
          (by rintro ⟨h1, h2⟩
              rcases h with h | h
              · exact h h1
              · omega)
      · rw [if_neg hbit]
        dsimp only
        exact ih (col + 1) _ _ y' x'
          (by rcases h with h | h
              · exact Or.inl h
              · exact Or.inr (by omega))

/-- The flag accumulated by the DXYN column loop is 1 exactly when it was
already 1 or some remaining in-bounds sprite bit of this row lands on a
pixel that is set in the loop's input display. -/
theorem drawCols_v15 (byte vx y : Nat) (hy : y < SCREEN_HEIGHT) :
    ∀ c col d v,
      ((drawCols byte vx y c col d v).2) 15 = 1 ↔
        (v 15 = 1 ∨ ∃ j, col ≤ j ∧ j < col + c ∧ vx + j < SCREEN_WIDTH ∧
          (byte >>> (7 - j)) &&& 0x1 = 1 ∧ d.fb y (vx + j) = 1) := by
  intro c
  induction c with
  | zero =>
    intro col d v
    constructor
    · intro h
      exact Or.inl h
    · rintro (h | ⟨j, h1, h2, _⟩)
      · exact h
      · omega
  | succ c ih =>
    intro col d v
    by_cases hb : SCREEN_WIDTH ≤ vx + col
    · simp only [drawCols, if_pos hb]
      constructor
      · intro h
        exact Or.inl h
      · rintro (h | ⟨j, h1, h2, h3, _⟩)
        · exact h
        · exact absurd h3 (by omega)
    · simp only [drawCols, if_neg hb]
      by_cases hbit : (byte >>> (7 - col)) &&& 0x1 = 1
      · rw [if_pos hbit]
        dsimp only
        rw [toggle_in_bounds d (vx + col) y (Nat.lt_of_not_le hb) hy]
        dsimp only
        by_cases hpix : d.fb y (vx + col) = 1
        · have ht : (d.fb y (vx + col) == 1) = true := by simp [hpix]
          rw [if_pos ht, ih (col + 1) _ _]
          constructor
          · intro _
            exact Or.inr ⟨col, Nat.le_refl col, by omega, Nat.lt_of_not_le hb, hbit, hpix⟩
          · intro _
            exact Or.inl (by simp [upd])
        · have hf : ¬((d.fb y (vx + col) == 1) = true) := by simp [hpix]
          rw [if_neg hf, ih (col + 1) _ _]
          constructor
          · rintro (h | ⟨j, h1, h2, h3, h4, h5⟩)
            · exact Or.inl h
            · refine Or.inr ⟨j, by omega, by omega, h3, h4, ?_⟩
              dsimp only at h5
              rwa [show upd2 d.fb y (vx + col) (d.fb y (vx + col) ^^^ 1) y (vx + j) =
                  d.fb y (vx + j) from by
                unfold upd2
                exact if_neg (by rintro ⟨_, h7⟩; omega)] at h5
          · rintro (h | ⟨j, h1, h2, h3, h4, h5⟩)
            · exact Or.inl h
            · have hj1 : col + 1 ≤ j := by
                rcases Nat.eq_or_lt_of_le h1 with heqj | hltj
                · exfalso
                  apply hpix
                  rw [heqj]
                  exact h5
                · omega
              refine Or.inr ⟨j, hj1, by omega, h3, h4, ?_⟩
              dsimp only
              rw [show upd2 d.fb y (vx + col) (d.fb y (vx + col) ^^^ 1) y (vx + j) =
                  d.fb y (vx + j) from by
                unfold upd2
                exact if_neg (by rintro ⟨_, h7⟩; omega)]
              exact h5
      · rw [if_neg hbit]
        dsimp only
        rw [ih (col + 1) _ _]
        constructor
        · rintro (h | ⟨j, h1, h2, h3, h4, h5⟩)
          · exact Or.inl h
          · exact Or.inr ⟨j, by omega, by omega, h3, h4, h5⟩
        · rintro (h | ⟨j, h1, h2, h3, h4, h5⟩)
          · exact Or.inl h
          · have hj1 : col + 1 ≤ j := by
              rcases Nat.eq_or_lt_of_le h1 with heqj | hltj
              · exfalso
                apply hbit
                rw [heqj]
                exact h4
              · omega
            exact Or.inr ⟨j, hj1, by omega, h3, h4, h5⟩

/-- The flag slot leaving the column loop is either its incoming value or
1 (the loop never writes anything else into it). -/
theorem drawCols_v15_cases (byte vx y : Nat) :
    ∀ c col d v, ((drawCols byte vx y c col d v).2) 15 = v 15 ∨
      ((drawCols byte vx y c col d v).2) 15 = 1 := by
  intro c
  induction c with
  | zero =>
    intro col d v
    exact Or.inl rfl
  | succ c ih =>
    intro col d v
    by_cases hb : SCREEN_WIDTH ≤ vx + col
    · simp only [drawCols, if_pos hb]
      exact Or.inl trivial
    · simp only [drawCols, if_neg hb]
      by_cases hbit : (byte >>> (7 - col)) &&& 0x1 = 1
      · rw [if_pos hbit]
        dsimp only
        by_cases ht : ((d.toggle (vx + col) y).2) = true
        · rw [if_pos ht]
          rcases ih (col + 1) (d.toggle (vx + col) y).1 (upd v 15 1) with h | h
          · right
            rw [h]
            simp [upd]
          · right
            exact h
        · rw [if_neg ht]
          exact ih (col + 1) _ v
      · rw [if_neg hbit]
        dsimp only
        exact ih (col + 1) d v

/-- The flag accumulated by the DXYN row loop is 1 exactly when it came in
as 1 or some remaining sprite row has an in-bounds set bit landing on a
pixel that is set in the loop's input display. -/
theorem drawRows_v15 (mem : Nat → Nat) (idx vx vy : Nat) :
    ∀ c row d v d' v', drawRows mem idx vx vy c row d v = some (d', v') →
      (v' 15 = 1 ↔ (v 15 = 1 ∨ ∃ r j, row ≤ r ∧ r < row + c ∧ vy + r < SCREEN_HEIGHT ∧
        j < 8 ∧ vx + j < SCREEN_WIDTH ∧ (mem (idx + r) >>> (7 - j)) &&& 0x1 = 1 ∧
        d.fb (vy + r) (vx + j) = 1)) := by
  intro c
  induction c with
  | zero =>
    intro row d v d' v' h
    simp only [drawRows] at h
    injection h with h2
    injection h2 with hd hv
    subst hd
    subst hv
    constructor
    · intro hh
      exact Or.inl hh
    · rintro (hh | ⟨r, j, h1, h2, _⟩)
      · exact hh
      · omega
  | succ c ih =>
    intro row d v d' v' h
    simp only [drawRows] at h
    by_cases hy : SCREEN_HEIGHT ≤ vy + row
    · rw [if_pos hy] at h
      injection h with h2
      injection h2 with hd hv
      subst hd
      subst hv
      constructor
      · intro hh
        exact Or.inl hh
      · rintro (hh | ⟨r, j, h1, h2, h3, _⟩)
        · exact hh
        · exact absurd h3 (by omega)
    · rw [if_neg hy] at h
      by_cases him : idx + row < MEM_SIZE
      · rw [if_pos him] at h
        rw [ih (row + 1) _ _ d' v' h,
          drawCols_v15 (mem (idx + row)) vx (vy + row) (by omega) 8 0 d v]
        constructor
        · rintro ((h0 | ⟨j, hj0, hj8, hjx, hjb, hjp⟩) | ⟨r, j, hr1, hr2, hr3, hj8, hjx, hjb, hjp⟩)
          · exact Or.inl h0
          · exact Or.inr ⟨row, j, Nat.le_refl row, by omega, by omega, by omega, hjx, hjb, hjp⟩
          · refine Or.inr ⟨r, j, by omega, by omega, hr3, hj8, hjx, hjb, ?_⟩
            rwa [drawCols_frame (mem (idx + row)) vx (vy + row) 8 0 d v (vy + r) (vx + j)
              (Or.inl (by omega))] at hjp
        · rintro (h0 | ⟨r, j, hr1, hr2, hr3, hj8, hjx, hjb, hjp⟩)
          · exact Or.inl (Or.inl h0)
          · rcases Nat.eq_or_lt_of_le hr1 with heqr | hltr
            · refine Or.inl (Or.inr ⟨j, Nat.zero_le j, by omega, hjx, ?_, ?_⟩)
              · rw [heqr]
                exact hjb
              · rw [heqr]
                exact hjp
            · refine Or.inr ⟨r, j, by omega, by omega, hr3, hj8, hjx, hjb, ?_⟩
              rw [drawCols_frame (mem (idx + row)) vx (vy + row) 8 0 d v (vy + r) (vx + j)
                (Or.inl (by omega))]
              exact hjp
      · rw [if_neg him] at h
        exact absurd h (by simp)

/-- The flag slot leaving the row loop is either its incoming value or 1. -/
theorem drawRows_v15_cases (mem : Nat → Nat) (idx vx vy : Nat) :
    ∀ c row d v d' v', drawRows mem idx vx vy c row d v = some (d', v') →
      v' 15 = v 15 ∨ v' 15 = 1 := by
  intro c
  induction c with
  | zero =>
    intro row d v d' v' h
    simp only [drawRows] at h
    injection h with h2
    injection h2 with hd hv
    exact Or.inl (by rw [← hv])
  | succ c ih =>
    intro row d v d' v' h
    simp only [drawRows] at h
    by_cases hy : SCREEN_HEIGHT ≤ vy + row
    · rw [if_pos hy] at h
      injection h with h2
      injection h2 with hd hv
      exact Or.inl (by rw [← hv])
    · rw [if_neg hy] at h
      by_cases him : idx + row < MEM_SIZE
      · rw [if_pos him] at h
        rcases ih (row + 1) _ _ d' v' h with h1 | h1
        · rcases drawCols_v15_cases (mem (idx + row)) vx (vy + row) 8 0 d v with h2 | h2
          · exact Or.inl (by rw [h1, h2])
          · exact Or.inr (by rw [h1, h2])
        · exact Or.inr h1
      · rw [if_neg him] at h
        exact absurd h (by simp)

/-- C1: whenever DXYN completes (no out-of-bounds sprite read), the flags
register ends at 1 exactly when some drawn sprite bit (value 1, on an
in-bounds pixel) toggles a pixel that was on — and at 0 otherwise.  Since a
sprite never visits a pixel twice, "on before the toggle" is the
pre-instruction display.  The right side does not mention the incoming
`v[0xF]`, so the flag is indeed reset before drawing, and the cumulative
"once 1, never back to 0 within the sprite" behaviour is exactly the
if-and-only-if. -/
theorem C1_display_collision (s : Chip8) (x y n : Nat) (s' : Chip8)
    (h : Chip8.op_display s x y n = some s') :
    (s'.v 15 = 1 ↔ sprite_collision s.memory.data s.i
      (s.v x % SCREEN_WIDTH) (s.v y % SCREEN_HEIGHT) n s.display) ∧
    (¬ sprite_collision s.memory.data s.i
      (s.v x % SCREEN_WIDTH) (s.v y % SCREEN_HEIGHT) n s.display → s'.v 15 = 0) := by
  simp only [Chip8.op_display] at h
  cases hdr : drawRows s.memory.data s.i (s.v x % SCREEN_WIDTH) (s.v y % SCREEN_HEIGHT) n 0
      s.display (upd s.v 15 0) with
  | none =>
    rw [hdr] at h
    exact absurd h (by simp)
  | some dv =>
    rw [hdr] at h
    dsimp only at h
    have hs : s' = { s with display := dv.1, v := dv.2 } := (Option.some.inj h).symm
    subst hs
    have hchar := drawRows_v15 s.memory.data s.i (s.v x % SCREEN_WIDTH)
      (s.v y % SCREEN_HEIGHT) n 0 s.display (upd s.v 15 0) dv.1 dv.2 (by rw [hdr])
    have hval := drawRows_v15_cases s.memory.data s.i (s.v x % SCREEN_WIDTH)
      (s.v y % SCREEN_HEIGHT) n 0 s.display (upd s.v 15 0) dv.1 dv.2 (by rw [hdr])
    have hiff : dv.2 15 = 1 ↔ sprite_collision s.memory.data s.i
        (s.v x % SCREEN_WIDTH) (s.v y % SCREEN_HEIGHT) n s.display := by
      rw [hchar]
      constructor
      · rintro (h0 | ⟨r, j, hr1, hr2, hr3, hj8, hjx, hjb, hjp⟩)
        · exfalso
          simp [upd] at h0
        · exact ⟨r, j, by omega, hr3, hj8, hjx, hjb, hjp⟩
      · rintro ⟨row, col, h1, h2, h3, h4, h5, h6⟩
        exact Or.inr ⟨row, col, Nat.zero_le row, by omega, h2, h3, h4, h5, h6⟩
    refine ⟨hiff, ?_⟩
    intro hnc
    rcases hval with h1 | h1
    · show dv.2 15 = 0
      rw [h1]
      simp [upd]
    · exact absurd (hiff.mp h1) hnc

/-- C1 witness: the theorem applied to a concrete engine: sprite byte 0x80
at address 0, drawn at the origin over a display whose pixel (0,0) is
already on — the draw completes and `VF` ends at 1. -/
theorem C1_display_collision_witness :
    ∃ s', Chip8.op_display
        { baseState with
          memory := ⟨fun a => if a = 0 then 0x80 else 0⟩
          display := ⟨fun yy xx => if yy = 0 ∧ xx = 0 then 1 else 0, false⟩ } 0 1 1 =
      some s' ∧ s'.v 15 = 1 := by
  have hs : (Chip8.op_display
      { baseState with
        memory := ⟨fun a => if a = 0 then 0x80 else 0⟩
        display := ⟨fun yy xx => if yy = 0 ∧ xx = 0 then 1 else 0, false⟩ } 0 1 1).isSome
      = true := by decide
  obtain ⟨s', hs'⟩ := Option.isSome_iff_exists.mp hs
  refine ⟨s', hs', ?_⟩
  rw [(C1_display_collision _ 0 1 1 s' hs').1]
  exact ⟨0, 0, by decide, by decide, by decide, by decide, by decide, by decide⟩
